import Mathlib

/-!
# Verification of the resume-builder scraping core

A shallow embedding, in Lean 4, of the keyword-merge algebra, the extractor
merge tree, the per-source pipeline and the scoring-arbiter worker loop of the
`resume-builder` Rust program, together with theorems settling the spec's
claims about them.

Floating-point keyword weights (`f32` in the source) are modelled as exact
rationals (`Rat`): the only operation the program performs on weights is
addition, and the spec's algebraic properties are stated "up to floating-point
tolerance", which the exact model realises with equality.

`FxHashSet<KeyWithData<String, f32>>` is modelled as an association list of
`KeyWithData` entries; the hash set's iteration order is modelled by the order
of the list, and set equality is lookup (per-key) equality.
-/

namespace ResumeBuilder

/-- Embedding of `KeyWithData<String, f32>` (src/page_scrapers/mod.rs):
a text key with a floating-point weight payload. -/
structure KeyWithData where
  key : String
  data : Rat
  deriving Repr, DecidableEq

/-- Embedding of the `PartialEq` impl for `KeyWithData`: equality compares
only the `key` field. -/
def kwdBeq (a b : KeyWithData) : Bool :=
  a.key == b.key

/-- Embedding of the `Hash` impl for `KeyWithData`: only `key` is fed to the
hasher (modelled as an arbitrary string-hash function). -/
def kwdHash (hasher : String → UInt64) (a : KeyWithData) : UInt64 :=
  hasher a.key

/-- A keyword set (`FxHashSet<KeyWithData<String, f32>>`) modelled as a list
of entries. -/
abbrev KeywordSet := List KeyWithData

/-- Lookup of the weight stored under a text key: the hash-set membership
test under the key-only equality of `kwdBeq`. -/
def kwLookup (key : String) : KeywordSet → Option Rat
  | [] => none
  | p :: rest => if p.key = key then some p.data else kwLookup key rest

/-- Embedding of `HashSet::take(&k)` under the key-only equality: removes and
returns the first entry whose key equals `key`. -/
def takeKey (key : String) : KeywordSet → Option KeyWithData × KeywordSet
  | [] => (none, [])
  | p :: rest =>
    if p.key = key then (some p, rest)
    else
      let r := takeKey key rest
      (r.1, p :: r.2)

/-- One iteration of the keyword-merging loop shared by `impl Add for
PageData` and `WorkdayScraper::scrape`: `take` the entry with the same key,
add the incoming weight to it and re-insert; otherwise insert the incoming
entry unchanged. -/
def addKeywordStep (acc : KeywordSet) (k : KeyWithData) : KeywordSet :=
  match takeKey k.key acc with
  | (some old, rest) => ⟨old.key, old.data + k.data⟩ :: rest
  | (none, _) => k :: acc

/-- The keyword part of `impl Add for PageData`: fold every entry of the
right-hand set into the left-hand set. -/
def mergeKeywords (a b : KeywordSet) : KeywordSet :=
  b.foldl addKeywordStep a

/-- The invariant of a keyword set: no two entries share a text key. -/
def NodupKeys (s : KeywordSet) : Prop :=
  (s.map KeyWithData.key).Nodup

instance : DecidablePred NodupKeys := fun s =>
  inferInstanceAs (Decidable ((s.map KeyWithData.key).Nodup))

/-- Embedding of `PageData` (src/page_scrapers/mod.rs). The URL is kept as
its textual form. -/
structure PageData where
  keywords : KeywordSet
  url : String
  job_title : String
  company : String
  deriving Repr, DecidableEq

/-- Embedding of `impl Add for PageData`: `fn add(mut self, rhs)` folds
`rhs.keywords` into `self.keywords` and returns `self`, whose `url`,
`job_title` and `company` fields are never touched. -/
def pageAdd (a b : PageData) : PageData :=
  { a with keywords := mergeKeywords a.keywords b.keywords }

/-- Pointwise combination describing the merged weight of one key. -/
def optCombine : Option Rat → Option Rat → Option Rat
  | some x, some y => some (x + y)
  | some x, none => some x
  | none, some y => some y
  | none, none => none

/-- Embedding of the result-collection loop at the end of `main`
(src/main.rs): `while let Some(result) = scrape_tasks.join_next().await
{ result??; }`. It consumes per-source task results in completion order; the
`?` operator returns the first error immediately. The embedding returns the
final outcome together with how many task results were consumed before the
loop ended (the remaining tasks are dropped, hence aborted, when `main`
returns). -/
def joinNextLoop : List (Except String Unit) → Except String Unit × Nat
  | [] => (Except.ok (), 0)
  | Except.ok () :: rest =>
    let r := joinNextLoop rest
    (r.1, r.2 + 1)
  | Except.error e :: _ => (Except.error e, 1)

/-- Embedding of `rust_bert`'s `Keyword` as used by the program: a keyword
text and its relevance score. -/
structure Keyword where
  text : String
  score : Rat
  deriving Repr, DecidableEq

/-- Embedding of the keyword-extraction worker loop spawned in `main`
(src/main.rs): each queued request is a batch of text fragments paired with
whether its caller still holds the reply channel (`true`) or has dropped it
(`false`). The loop receives a request, runs the model, and attempts to send
the prediction back; `if sender.send(..).is_err() { break }` exits the loop
when the caller has dropped its reply channel. The value returned is the
list of `(request, delivered reply)` pairs. -/
def workerLoop (model : List String → List (List Keyword)) :
    List (List String × Bool) → List (List String × List (List Keyword))
  | [] => []
  | (req, listening) :: rest =>
    if listening then (req, model req) :: workerLoop model rest
    else []

/-- A trivial concrete scoring model used to instantiate worker-loop
statements. -/
def constModel : List String → List (List Keyword) :=
  fun frags => frags.map (fun _ => [])

/-- Helper for substring search over character lists. -/
def containsSubAux (needle : List Char) : List Char → Bool
  | [] => needle.isEmpty
  | c :: rest => needle.isPrefixOf (c :: rest) || containsSubAux needle rest

/-- Embedding of Rust `str::contains` with a string pattern: substring
test of `pat` inside `hay`. -/
def containsSub (hay pat : String) : Bool :=
  containsSubAux pat.toList hay.toList

/-- Embedding of `ScraperState` (src/page_scrapers/mod.rs). The parts of the
page that the scrapers obtain through the external `scraper` HTML library are
modelled as pre-extracted fields (`jobPostingHeader` is the first node
matching the job-posting-header selector, `jobPostingDescLines` the `li`
texts of the first job-posting-description node, both `none` when no node
matches), and the round trip through the scoring arbiter
(`extract_keywords` followed by `PendingKeywords::get`) is modelled as the
function `extractKeywords` computed by the arbiter's model. -/
structure ScraperState where
  host : String
  urlStr : String
  pathSegments : List String
  jobPostingHeader : Option String
  jobPostingDescLines : Option (List String)
  extractKeywords : List String → List (List Keyword)
  enabledScrapers : List String

/-- The keyword-accumulation loop of `WorkdayScraper::scrape`
(src/page_scrapers/workday.rs): flatten the per-fragment keyword groups and
fold them into an initially empty set with the take/add/insert step. -/
def accumulateKeywords (groups : List (List Keyword)) : KeywordSet :=
  groups.flatten.foldl (fun acc k => addKeywordStep acc ⟨k.text, k.score⟩) []

/-- Embedding of `WorkdayScraper::scrape` (src/page_scrapers/workday.rs). -/
def workdayScrape (s : ScraperState) : Option (Except String PageData) :=
  if containsSub s.host "myworkdaysite.com" = false then none
  else
    match (s.pathSegments.take 2).getLast? with
    | none => none
    | some company =>
      match s.jobPostingHeader with
      | none => none
      | some jobTitle =>
        match s.jobPostingDescLines with
        | none => none
        | some lines =>
          some (Except.ok
            { keywords := accumulateKeywords (s.extractKeywords lines)
              url := s.urlStr
              job_title := jobTitle
              company := company })

/-- Outcome of running one scraper, with a distinguished case for a Rust
panic. -/
inductive ScrapeOutcome where
  | value (v : Option (Except String PageData))
  | panic (msg : String)
  deriving Repr

/-- Embedding of `SimplifyScraper::scrape` (src/page_scrapers/simplify.rs):
after the host check it unconditionally reaches `todo!()`, which panics with
the standard `not yet implemented` message. -/
def simplifyScrape (s : ScraperState) : ScrapeOutcome :=
  if containsSub s.host "simplify.jobs" = false then ScrapeOutcome.value none
  else ScrapeOutcome.panic "not yet implemented"

/-- The `(Option<PageData>, Vec<anyhow::Error>)` pair produced by one subtree
of the `scrape_page!` macro, or a propagated panic. -/
inductive ScrapeResult where
  | ok (data : Option PageData) (errs : List String)
  | panicked (msg : String)
  deriving Repr

/-- The single-scraper arm of `scrape_page!` (src/page_scrapers/mod.rs)
monomorphized at `WorkdayScraper` (whose `NAME` is `"workday"`): a scraper
absent from `enabled_scrapers` contributes `(None, vec![])`; otherwise its
return value is converted as in the macro (`None ↦ (None, [])`,
`Some(Err(e)) ↦ (None, [e])`, `Some(Ok(x)) ↦ (Some(x), [])`). -/
def scrapeArmWorkday (s : ScraperState) : ScrapeResult :=
  if s.enabledScrapers.contains "workday" then
    match workdayScrape s with
    | none => ScrapeResult.ok none []
    | some (Except.error e) => ScrapeResult.ok none [e]
    | some (Except.ok x) => ScrapeResult.ok (some x) []
  else ScrapeResult.ok none []

/-- The single-scraper arm of `scrape_page!` monomorphized at
`SimplifyScraper` (whose `NAME` is `"simplify"`), which can panic. -/
def scrapeArmSimplify (s : ScraperState) : ScrapeResult :=
  if s.enabledScrapers.contains "simplify" then
    match simplifyScrape s with
    | ScrapeOutcome.panic m => ScrapeResult.panicked m
    | ScrapeOutcome.value none => ScrapeResult.ok none []
    | ScrapeOutcome.value (some (Except.error e)) => ScrapeResult.ok none [e]
    | ScrapeOutcome.value (some (Except.ok x)) => ScrapeResult.ok (some x) []
  else ScrapeResult.ok none []

/-- Embedding of the error-list combination in the pairwise arm of
`scrape_page!`: `if errs1.capacity() > errs2.capacity()
{ errs1.append(&mut errs2) } else { errs2.append(&mut errs1); errs1 = errs2 }`.
The `Vec` capacity comparison depends on allocator state, so it is modelled
by an arbitrary boolean `capGt` ("the left list's capacity is greater"). -/
def combineErrs (capGt : Bool) (e1 e2 : List String) : List String :=
  if capGt then e1 ++ e2 else e2 ++ e1

/-- Embedding of the two-subtree combination step of `scrape_page!`,
including `rayon::join`'s propagation of a panic from either side: data
combines with `PageData` addition when both sides produced some, otherwise
whichever side produced data is kept; error lists combine with
`combineErrs`. -/
def combineResults (capGt : Bool) : ScrapeResult → ScrapeResult → ScrapeResult
  | ScrapeResult.panicked m, _ => ScrapeResult.panicked m
  | ScrapeResult.ok _ _, ScrapeResult.panicked m => ScrapeResult.panicked m
  | ScrapeResult.ok d1 e1, ScrapeResult.ok d2 e2 =>
    ScrapeResult.ok
      (match d1, d2 with
       | some x, some y => some (pageAdd x y)
       | some x, none => some x
       | none, d => d)
      (combineErrs capGt e1 e2)

/-- Embedding of `scrape_page` (src/page_scrapers/mod.rs):
`scrape_page!(state, SimplifyScraper, WorkdayScraper)`, the simplify arm
being the left subtree and the workday arm the right one. -/
def scrapePage (capGt : Bool) (s : ScraperState) : ScrapeResult :=
  combineResults capGt (scrapeArmSimplify s) (scrapeArmWorkday s)

/-- A concrete `ScraperState` for instantiating scraper statements: a host
matching neither scraper, with both scrapers enabled. -/
def exampleState : ScraperState :=
  { host := "example.com"
    urlStr := "https://example.com/jobs"
    pathSegments := ["jobs"]
    jobPostingHeader := none
    jobPostingDescLines := none
    extractKeywords := fun frags => frags.map (fun _ => [])
    enabledScrapers := ["simplify", "workday"] }

/-- `exampleState` pointed at a `simplify.jobs` host. -/
def simplifyState : ScraperState :=
  { exampleState with host := "app.simplify.jobs" }

/-- Environment of one source's pipeline task in `main` (src/main.rs): the
decoded cache entry when the cache file exists (`none` = no file;
`some (Except.error _)` = undecodable file; `some (Except.ok none)` = the
"no data" tombstone), the outcome of the fetch (navigate and read content),
the scrape function applied to the fetched HTML, and the downstream consumer
`use_page_data`. -/
structure SourceEnv where
  cached : Option (Except String (Option PageData))
  fetched : Except String String
  scrape : String → Option PageData × List String
  usePageData : PageData → Except String Unit

/-- Observable outcome of one source's pipeline task: how many fetches were
performed, what (if anything) was written to the cache, which `PageData`
values were handed to the downstream consumer, and the task's result. -/
structure SourceRun where
  fetchCount : Nat
  persisted : Option (Option PageData)
  downstream : List PageData
  result : Except String Unit
  deriving Repr

/-- Embedding of the per-source pipeline of `main` (src/main.rs). On a cache
hit the file is decoded: a decode failure fails the task, a `None` tombstone
ends the task at once with an empty result, and a stored result goes
straight to the downstream consumer. On a miss the page is fetched (a fetch
failure fails the task), scraped, the scrape's data — possibly the
tombstone — is persisted, and non-empty data is handed downstream. -/
def runSource (env : SourceEnv) : SourceRun :=
  match env.cached with
  | some (Except.error e) => ⟨0, none, [], Except.error e⟩
  | some (Except.ok none) => ⟨0, none, [], Except.ok ()⟩
  | some (Except.ok (some pd)) => ⟨0, none, [pd], env.usePageData pd⟩
  | none =>
    match env.fetched with
    | Except.error e => ⟨1, none, [], Except.error e⟩
    | Except.ok html =>
      match env.scrape html with
      | (none, _) => ⟨1, some none, [], Except.ok ()⟩
      | (some pd, _) => ⟨1, some (some pd), [pd], env.usePageData pd⟩

/-- A concrete pipeline environment whose cache entry is the tombstone. -/
def tombstoneEnv : SourceEnv :=
  { cached := some (Except.ok none)
    fetched := Except.ok ""
    scrape := fun _ => (none, [])
    usePageData := fun _ => Except.ok () }

section TakeKeyLemmas

theorem takeKey_fst_eq_none (key : String) (s : KeywordSet) :
    (takeKey key s).1 = none ↔ kwLookup key s = none := by
  induction s with
  | nil => simp [takeKey, kwLookup]
  | cons p rest ih =>
    by_cases h : p.key = key <;> simp [takeKey, kwLookup, h, ih]

theorem takeKey_fst_eq_some (key : String) (s : KeywordSet) (p : KeyWithData)
    (h : (takeKey key s).1 = some p) :
    p.key = key ∧ kwLookup key s = some p.data := by
  induction s with
  | nil => simp [takeKey] at h
  | cons q rest ih =>
    by_cases hq : q.key = key
    · simp [takeKey, hq] at h
      subst h
      exact ⟨hq, by simp [kwLookup, hq]⟩
    · simp [takeKey, hq] at h
      rcases ih h with ⟨h1, h2⟩
      exact ⟨h1, by simp [kwLookup, hq, h2]⟩

theorem kwLookup_takeKey_snd (key q : String) (s : KeywordSet) (hq : q ≠ key) :
    kwLookup q (takeKey key s).2 = kwLookup q s := by
  induction s with
  | nil => simp [takeKey]
  | cons p rest ih =>
    by_cases h : p.key = key
    · have hpq : p.key ≠ q := by rw [h]; exact fun hc => hq hc.symm
      simp [takeKey, if_pos h, kwLookup, if_neg hpq]
    · simp only [takeKey, if_neg h, kwLookup]
      by_cases h2 : p.key = q
      · simp [h2]
      · simp [h2, ih]

end TakeKeyLemmas

section MergeLemmas

theorem kwLookup_addKeywordStep (q : String) (acc : KeywordSet) (k : KeyWithData) :
    kwLookup q (addKeywordStep acc k) =
      if q = k.key then
        match kwLookup q acc with
        | some w => some (w + k.data)
        | none => some k.data
      else kwLookup q acc := by
  unfold addKeywordStep
  rcases htake : takeKey k.key acc with ⟨fst, rest⟩
  cases fst with
  | some old =>
    have hsome : (takeKey k.key acc).1 = some old := by rw [htake]
    rcases takeKey_fst_eq_some k.key acc old hsome with ⟨hkey, hlook⟩
    by_cases hq : q = k.key
    · subst hq
      simp [kwLookup, hkey, hlook]
    · have hrest : (takeKey k.key acc).2 = rest := by rw [htake]
      have := kwLookup_takeKey_snd k.key q acc hq
      rw [hrest] at this
      have hne : old.key ≠ q := by rw [hkey]; exact fun hc => hq hc.symm
      simp [kwLookup, hne, hq, this]
  | none =>
    have hnone : (takeKey k.key acc).1 = none := by rw [htake]
    have hlook : kwLookup k.key acc = none := (takeKey_fst_eq_none k.key acc).mp hnone
    by_cases hq : q = k.key
    · subst hq
      simp [kwLookup, hlook]
    · have hne : k.key ≠ q := fun hc => hq hc.symm
      simp [kwLookup, hne, hq]

theorem kwLookup_eq_none_of_not_mem (q : String) (s : KeywordSet)
    (h : q ∉ s.map KeyWithData.key) : kwLookup q s = none := by
  induction s with
  | nil => rfl
  | cons p rest ih =>
    simp only [List.map_cons, List.mem_cons] at h
    push_neg at h
    have : p.key ≠ q := fun hc => h.1 hc.symm
    simp [kwLookup, this, ih h.2]

theorem kwLookup_mergeKeywords (a b : KeywordSet) (hb : NodupKeys b) (q : String) :
    kwLookup q (mergeKeywords a b) = optCombine (kwLookup q a) (kwLookup q b) := by
  induction b generalizing a with
  | nil =>
    simp only [mergeKeywords, List.foldl_nil, kwLookup]
    cases kwLookup q a <;> rfl
  | cons k rest ih =>
    have hrest : NodupKeys rest := by
      unfold NodupKeys at hb ⊢
      simp only [List.map_cons, List.nodup_cons] at hb
      exact hb.2
    have hknotin : k.key ∉ rest.map KeyWithData.key := by
      unfold NodupKeys at hb
      simp only [List.map_cons, List.nodup_cons] at hb
      exact hb.1
    have hmerge : mergeKeywords a (k :: rest) = mergeKeywords (addKeywordStep a k) rest := rfl
    rw [hmerge, ih (addKeywordStep a k) hrest]
    rw [kwLookup_addKeywordStep]
    by_cases hq : q = k.key
    · subst hq
      have h0 : kwLookup k.key rest = none := kwLookup_eq_none_of_not_mem _ rest hknotin
      have h1 : kwLookup k.key (k :: rest) = some k.data := by simp [kwLookup]
      rw [if_pos rfl, h0, h1]
      cases kwLookup k.key a <;> rfl
    · have hne : k.key ≠ q := fun hc => hq hc.symm
      simp [kwLookup, hne, hq]

end MergeLemmas

section NodupLemmas

theorem takeKey_snd_keys_sublist (key : String) (s : KeywordSet) :
    ((takeKey key s).2.map KeyWithData.key).Sublist (s.map KeyWithData.key) := by
  induction s with
  | nil => simp [takeKey]
  | cons p rest ih =>
    by_cases h : p.key = key
    · simp only [takeKey, if_pos h, List.map_cons]
      exact (List.sublist_cons_self _ _)
    · simp only [takeKey, if_neg h, List.map_cons]
      exact ih.cons₂ p.key

theorem key_not_mem_takeKey_snd (key : String) (s : KeywordSet) (hs : NodupKeys s) :
    key ∉ (takeKey key s).2.map KeyWithData.key := by
  induction s with
  | nil => simp [takeKey]
  | cons p rest ih =>
    unfold NodupKeys at hs
    simp only [List.map_cons, List.nodup_cons] at hs
    by_cases h : p.key = key
    · simp only [takeKey, if_pos h]
      rw [← h]
      exact hs.1
    · simp only [takeKey, if_neg h, List.map_cons, List.mem_cons]
      push_neg
      exact ⟨fun hc => h hc.symm, ih hs.2⟩

theorem kwLookup_eq_none_iff (q : String) (s : KeywordSet) :
    kwLookup q s = none ↔ q ∉ s.map KeyWithData.key := by
  constructor
  · intro h hmem
    induction s with
    | nil => simp at hmem
    | cons p rest ih =>
      simp only [List.map_cons, List.mem_cons] at hmem
      by_cases hp : p.key = q
      · simp [kwLookup, hp] at h
      · simp only [kwLookup, if_neg hp] at h
        rcases hmem with hmem | hmem
        · exact hp hmem.symm
        · exact ih h hmem
  · exact kwLookup_eq_none_of_not_mem q s

theorem nodupKeys_addKeywordStep (s : KeywordSet) (k : KeyWithData) (hs : NodupKeys s) :
    NodupKeys (addKeywordStep s k) := by
  unfold addKeywordStep
  rcases htake : takeKey k.key s with ⟨fst, rest⟩
  cases fst with
  | some old =>
    have hsome : (takeKey k.key s).1 = some old := by rw [htake]
    have hkey : old.key = k.key := (takeKey_fst_eq_some k.key s old hsome).1
    have hrest : (takeKey k.key s).2 = rest := by rw [htake]
    have hsub := takeKey_snd_keys_sublist k.key s
    have hnotin := key_not_mem_takeKey_snd k.key s hs
    rw [hrest] at hsub hnotin
    unfold NodupKeys
    simp only [List.map_cons, List.nodup_cons]
    exact ⟨hkey ▸ hnotin, hsub.nodup hs⟩
  | none =>
    have hnone : (takeKey k.key s).1 = none := by rw [htake]
    have hlook : kwLookup k.key s = none := (takeKey_fst_eq_none k.key s).mp hnone
    unfold NodupKeys
    simp only [List.map_cons, List.nodup_cons]
    exact ⟨(kwLookup_eq_none_iff k.key s).mp hlook, hs⟩

theorem nodupKeys_mergeKeywords (a b : KeywordSet) (ha : NodupKeys a) :
    NodupKeys (mergeKeywords a b) := by
  induction b generalizing a with
  | nil => exact ha
  | cons k rest ih => exact ih (addKeywordStep a k) (nodupKeys_addKeywordStep a k ha)

theorem optCombine_comm (x y : Option Rat) : optCombine x y = optCombine y x := by
  cases x <;> cases y <;> simp [optCombine, add_comm]

theorem optCombine_assoc (x y z : Option Rat) :
    optCombine (optCombine x y) z = optCombine x (optCombine y z) := by
  cases x <;> cases y <;> cases z <;> simp [optCombine, add_assoc]

end NodupLemmas

theorem nodupKeys_foldl_addKeywordStep (l : List Keyword) (acc : KeywordSet)
    (h : NodupKeys acc) :
    NodupKeys (l.foldl (fun a k => addKeywordStep a ⟨k.text, k.score⟩) acc) := by
  induction l generalizing acc with
  | nil => exact h
  | cons k rest ih => exact ih _ (nodupKeys_addKeywordStep _ _ h)

/-- **C1.** Merging two keyword sets (`PageData` addition) gives, for each
text key, an entry whose weight is the sum of the two weights when the key
occurs in both sets, and the original entry's weight unchanged when the key
occurs in only one of them. -/
theorem C1_pageAdd_weights (a b : PageData)
    (ha : NodupKeys a.keywords) (hb : NodupKeys b.keywords) (k : String) :
    (∀ wa wb, kwLookup k a.keywords = some wa → kwLookup k b.keywords = some wb →
      kwLookup k (pageAdd a b).keywords = some (wa + wb)) ∧
    (∀ wa, kwLookup k a.keywords = some wa → kwLookup k b.keywords = none →
      kwLookup k (pageAdd a b).keywords = some wa) ∧
    (∀ wb, kwLookup k a.keywords = none → kwLookup k b.keywords = some wb →
      kwLookup k (pageAdd a b).keywords = some wb) := by
  have hchar : kwLookup k (pageAdd a b).keywords
      = optCombine (kwLookup k a.keywords) (kwLookup k b.keywords) :=
    kwLookup_mergeKeywords a.keywords b.keywords hb k
  refine ⟨?_, ?_, ?_⟩
  · intro wa wb hwa hwb
    rw [hchar, hwa, hwb]; rfl
  · intro wa hwa hwb
    rw [hchar, hwa, hwb]; rfl
  · intro wb hwa hwb
    rw [hchar, hwa, hwb]; rfl

/-- Witness for C1 at the spec's example: merging `{("x", 1.0)}` with
`{("x", 2.0)}` yields weight `3.0` for `"x"`. -/
theorem C1_pageAdd_weights_witness :
    kwLookup "x" (pageAdd ⟨[⟨"x", 1⟩], "u", "", ""⟩ ⟨[⟨"x", 2⟩], "u", "", ""⟩).keywords
      = some 3 := by
  have h := (C1_pageAdd_weights ⟨[⟨"x", 1⟩], "u", "", ""⟩ ⟨[⟨"x", 2⟩], "u", "", ""⟩
    (by decide) (by decide) "x").1 1 2 (by decide) (by decide)
  norm_num at h
  exact h

/-- **C2.** Restricted to keyword sets, merge is commutative and associative
(exactly, in the rational weight model), and the empty set is an identity on
both sides. -/
theorem C2_merge_algebra (a b c : KeywordSet)
    (ha : NodupKeys a) (hb : NodupKeys b) (hc : NodupKeys c) :
    (∀ k, kwLookup k (mergeKeywords a b) = kwLookup k (mergeKeywords b a)) ∧
    (∀ k, kwLookup k (mergeKeywords (mergeKeywords a b) c)
      = kwLookup k (mergeKeywords a (mergeKeywords b c))) ∧
    mergeKeywords a [] = a ∧
    (∀ k, kwLookup k (mergeKeywords [] a) = kwLookup k a) := by
  refine ⟨?_, ?_, rfl, ?_⟩
  · intro k
    rw [kwLookup_mergeKeywords a b hb k, kwLookup_mergeKeywords b a ha k, optCombine_comm]
  · intro k
    rw [kwLookup_mergeKeywords (mergeKeywords a b) c hc k,
      kwLookup_mergeKeywords a b hb k,
      kwLookup_mergeKeywords a (mergeKeywords b c) (nodupKeys_mergeKeywords b c hb) k,
      kwLookup_mergeKeywords b c hc k, optCombine_assoc]
  · intro k
    rw [kwLookup_mergeKeywords [] a ha k]
    cases kwLookup k a <;> rfl

/-- Witness for C2 at concrete keyword sets. -/
theorem C2_merge_algebra_witness :
    kwLookup "y"
        (mergeKeywords (mergeKeywords [⟨"x", 1⟩] [⟨"x", 2⟩, ⟨"y", 5⟩]) [⟨"y", 1⟩])
      = kwLookup "y"
        (mergeKeywords [⟨"x", 1⟩] (mergeKeywords [⟨"x", 2⟩, ⟨"y", 5⟩] [⟨"y", 1⟩])) :=
  (C2_merge_algebra [⟨"x", 1⟩] [⟨"x", 2⟩, ⟨"y", 5⟩] [⟨"y", 1⟩]
    (by decide) (by decide) (by decide)).2.1 "y"

/-- **C3 (counterexample).** `PageData` addition keeps the left operand's
`job_title` and `company` unconditionally: with an empty left job title and a
non-empty right one, the merged result's job title is still empty, refuting
the claim that the non-empty side's value is carried over. -/
theorem C3_counterexample :
    (pageAdd ⟨[], "u", "", ""⟩ ⟨[], "u", "Engineer", "Acme"⟩).job_title ≠ "Engineer" ∧
    (pageAdd ⟨[], "u", "", ""⟩ ⟨[], "u", "Engineer", "Acme"⟩).job_title = "" := by
  constructor
  · decide
  · rfl

/-- **C3 (amended).** Merging two `PageData` values always keeps the left
operand's `job_title`, `company` and `url`, regardless of emptiness; the
right operand's metadata is discarded. -/
theorem C3_pageAdd_left_metadata (a b : PageData) :
    (pageAdd a b).job_title = a.job_title ∧
    (pageAdd a b).company = a.company ∧
    (pageAdd a b).url = a.url :=
  ⟨rfl, rfl, rfl⟩

/-- **C4 (counterexample).** With the completion order `[failure, success]`,
the join loop consumes only the first result: the run reports failure before
the second source's task has been awaited, refuting the claim that every
source reaches a terminal state before the run reports failure. -/
theorem C4_counterexample :
    (joinNextLoop [Except.error "boom", Except.ok ()]).2
      ≠ [Except.error "boom", Except.ok ()].length := by
  decide

/-- **C4 (amended).** The run succeeds exactly when every awaited source
succeeded, but aggregation is fail-fast: as soon as a failed source is
observed, the loop returns that error having consumed only the results up to
and including it — later sources are not awaited to a terminal state. -/
theorem C4_join_loop_fail_fast :
    (∀ rs : List (Except String Unit),
      ((joinNextLoop rs).1 = Except.ok () ↔ ∀ r ∈ rs, r = Except.ok ())) ∧
    (∀ (pre rest : List (Except String Unit)) (e : String),
      (∀ r ∈ pre, r = Except.ok ()) →
      joinNextLoop (pre ++ Except.error e :: rest) = (Except.error e, pre.length + 1)) := by
  constructor
  · intro rs
    induction rs with
    | nil => simp [joinNextLoop]
    | cons r rest ih =>
      cases r with
      | ok u =>
        cases u
        simp only [joinNextLoop, List.mem_cons]
        rw [ih]
        constructor
        · intro h x hx
          rcases hx with hx | hx
          · rw [hx]
          · exact h x hx
        · intro h x hx
          exact h x (Or.inr hx)
      | error e =>
        simp [joinNextLoop]
  · intro pre rest e hpre
    induction pre with
    | nil => simp [joinNextLoop]
    | cons r pre ih =>
      have hr : r = Except.ok () := hpre r (List.mem_cons_self r pre)
      subst hr
      have hpre2 : ∀ x ∈ pre, x = Except.ok () := fun x hx => hpre x (List.mem_cons_of_mem _ hx)
      simp only [List.cons_append, joinNextLoop, List.append_eq, ih hpre2, List.length_cons]

/-- Witness for C4 (amended) at a concrete completion order. -/
theorem C4_join_loop_fail_fast_witness :
    joinNextLoop [Except.ok (), Except.error "boom", Except.ok ()]
      = (Except.error "boom", 2) :=
  C4_join_loop_fail_fast.2 [Except.ok ()] [Except.ok ()] "boom"
    (fun r hr => List.mem_singleton.mp hr)

/-- **C5 (counterexample).** A queue whose first caller dropped its reply
channel and whose second caller is still listening: the worker delivers no
replies at all, so the abandoned channel does prevent the subsequent request
from being serviced, refuting the claim. -/
theorem C5_counterexample :
    workerLoop constModel [(["a"], false), (["b"], true)] = [] ∧
    (["b"], true) ∈ [(["a"], false), (["b"], true)] := by
  constructor
  · rfl
  · decide

/-- **C5 (amended).** The worker's failed send does not panic, but it breaks
the loop: the worker services exactly the longest prefix of queued requests
whose callers still hold their reply channels; every request after the first
abandoned one is never serviced. -/
theorem C5_worker_stops_at_first_dropped
    (model : List String → List (List Keyword)) (queue : List (List String × Bool)) :
    workerLoop model queue
      = (queue.takeWhile (fun p => p.2)).map (fun p => (p.1, model p.1)) := by
  induction queue with
  | nil => rfl
  | cons p rest ih =>
    rcases p with ⟨req, listening⟩
    cases listening <;> simp [workerLoop, List.takeWhile_cons, ih]

/-- **C6.** Combining two extractor subtrees concatenates their error lists
one way or the other depending on the capacity comparison, and the combined
list is complete: whatever the comparison outcome, it is a permutation of
the two lists' concatenation and contains exactly the errors of both
sides. -/
theorem C6_combined_errors_complete (capGt : Bool) (e1 e2 : List String)
    (d1 d2 : Option PageData) :
    (∃ d, combineResults capGt (ScrapeResult.ok d1 e1) (ScrapeResult.ok d2 e2)
      = ScrapeResult.ok d (combineErrs capGt e1 e2)) ∧
    (combineErrs capGt e1 e2).Perm (e1 ++ e2) ∧
    (∀ x, x ∈ combineErrs capGt e1 e2 ↔ x ∈ e1 ∨ x ∈ e2) := by
  refine ⟨⟨_, rfl⟩, ?_, ?_⟩
  · cases capGt with
    | false => exact List.perm_append_comm
    | true => exact List.Perm.refl _
  · intro x
    cases capGt <;> simp [combineErrs, List.mem_append, or_comm]

/-- **C7.** A source whose cache entry is the "no data" tombstone ends
immediately with an empty result: no fetch, no cache write, nothing handed
to the downstream consumer, and a successful task result. -/
theorem C7_tombstone_hit_is_empty_done (env : SourceEnv)
    (h : env.cached = some (Except.ok none)) :
    runSource env = ⟨0, none, [], Except.ok ()⟩ := by
  unfold runSource
  rw [h]

/-- Witness for C7 at a concrete tombstone environment. -/
theorem C7_tombstone_hit_is_empty_done_witness :
    runSource tombstoneEnv = ⟨0, none, [], Except.ok ()⟩ :=
  C7_tombstone_hit_is_empty_done tombstoneEnv rfl

/-- **C8.** A scraper that is disabled, or whose host-match applicability
test fails, contributes neither data nor errors: its arm yields
`(None, vec![])`, and such a result is a two-sided identity of the combine
step, leaving the sibling subtree's merged result unchanged. -/
theorem C8_disabled_or_inapplicable_is_inert (s : ScraperState) :
    ((s.enabledScrapers.contains "workday" = false ∨
        containsSub s.host "myworkdaysite.com" = false) →
      scrapeArmWorkday s = ScrapeResult.ok none []) ∧
    ((s.enabledScrapers.contains "simplify" = false ∨
        containsSub s.host "simplify.jobs" = false) →
      scrapeArmSimplify s = ScrapeResult.ok none []) ∧
    (∀ capGt r, combineResults capGt (ScrapeResult.ok none []) r = r ∧
      combineResults capGt r (ScrapeResult.ok none []) = r) := by
  refine ⟨?_, ?_, ?_⟩
  · rintro (h | h)
    · unfold scrapeArmWorkday
      rw [h]
      rfl
    · have hw : workdayScrape s = none := by
        unfold workdayScrape
        rw [h]
        rfl
      unfold scrapeArmWorkday
      rw [hw]
      cases s.enabledScrapers.contains "workday" <;> rfl
  · rintro (h | h)
    · unfold scrapeArmSimplify
      rw [h]
      rfl
    · have hw : simplifyScrape s = ScrapeOutcome.value none := by
        unfold simplifyScrape
        rw [h]
        rfl
      unfold scrapeArmSimplify
      rw [hw]
      cases s.enabledScrapers.contains "simplify" <;> rfl
  · intro capGt r
    cases r with
    | panicked m => exact ⟨rfl, rfl⟩
    | ok d e =>
      cases d <;> cases capGt <;> simp [combineResults, combineErrs]

/-- Witness for C8: with both scrapers enabled but a host matching neither,
the workday arm contributes nothing. -/
theorem C8_disabled_or_inapplicable_is_inert_witness :
    scrapeArmWorkday exampleState = ScrapeResult.ok none [] :=
  (C8_disabled_or_inapplicable_is_inert exampleState).1 (Or.inr (by decide))

/-- **C9.** Keyword identity is by text key only: the embedded `PartialEq`
equates any two entries with equal keys regardless of weight, and the
embedded `Hash` depends only on the key. Every operation building a keyword
set — `PageData` addition and the workday scraper's accumulation loop —
preserves the unique-text invariant. -/
theorem C9_key_identity_and_invariant :
    (∀ k d1 d2, kwdBeq ⟨k, d1⟩ ⟨k, d2⟩ = true) ∧
    (∀ a b, kwdBeq a b = true ↔ a.key = b.key) ∧
    (∀ hasher a b, a.key = b.key → kwdHash hasher a = kwdHash hasher b) ∧
    (∀ a b : PageData, NodupKeys a.keywords → NodupKeys (pageAdd a b).keywords) ∧
    (∀ groups, NodupKeys (accumulateKeywords groups)) := by
  refine ⟨?_, ?_, ?_, ?_, ?_⟩
  · intro k d1 d2
    simp [kwdBeq]
  · intro a b
    simp [kwdBeq]
  · intro hasher a b h
    simp [kwdHash, h]
  · intro a b ha
    exact nodupKeys_mergeKeywords a.keywords b.keywords ha
  · intro groups
    exact nodupKeys_foldl_addKeywordStep groups.flatten [] (by simp [NodupKeys])

/-- Witness for C9 at concrete inputs. -/
theorem C9_key_identity_and_invariant_witness :
    NodupKeys (pageAdd ⟨[⟨"x", 1⟩], "u", "", ""⟩
      ⟨[⟨"x", 2⟩, ⟨"y", 1⟩], "u", "", ""⟩).keywords :=
  C9_key_identity_and_invariant.2.2.2.1
    ⟨[⟨"x", 1⟩], "u", "", ""⟩ ⟨[⟨"x", 2⟩, ⟨"y", 1⟩], "u", "", ""⟩ (by decide)

/-- **C10.** On any source whose host contains `simplify.jobs`, the simplify
scraper reaches `todo!()` and panics; it never returns a value (neither
`None`, `Some(Err(_))` nor `Some(Ok(_))`). -/
theorem C10_simplify_scrape_panics (s : ScraperState)
    (h : containsSub s.host "simplify.jobs" = true) :
    simplifyScrape s = ScrapeOutcome.panic "not yet implemented" ∧
    ∀ v, simplifyScrape s ≠ ScrapeOutcome.value v := by
  have hmain : simplifyScrape s = ScrapeOutcome.panic "not yet implemented" := by
    simp [simplifyScrape, h]
  exact ⟨hmain, fun v hv => by rw [hmain] at hv; exact ScrapeOutcome.noConfusion hv⟩

/-- Witness for C10 at a concrete `simplify.jobs` source. -/
theorem C10_simplify_scrape_panics_witness :
    simplifyScrape simplifyState = ScrapeOutcome.panic "not yet implemented" :=
  (C10_simplify_scrape_panics simplifyState (by decide)).1

end ResumeBuilder
